import Mathlib

/-!
# Fall detection firmware (`src/main.cpp`): event loop, panic button, MQTT alerts

A shallow embedding of `reconnectMQTT()`, `beep()` and `loop()`.

* The hardware and the MQTT client are an abstract `Platform W`: every library
  call of the sketch is a transition on an environment state `W` that may also
  return an answer.  Nothing is assumed about a platform unless a theorem says so.
* Every call the sketch makes is appended to a log together with the environment
  state in which it was made, so that theorems can speak about which calls happen,
  in which order, with which arguments and in which state of the channel.
* `Serial` output (and the `client.state()` getter printed with it) is diagnostic
  only and is not modelled.
* Acceleration components and `mag` are binary32 values (`F32`).  The products,
  the sums and the square root of lines 170-172 are each rounded to nearest, ties
  to even, as the source expression is written; the comparison with `25.0` of
  line 204 is exact.  NaN and infinite components are values of the type.
-/

namespace FallDetection

/-! ## Constants of the sketch -/

/-- Arduino level `HIGH` (`0x1`), as stored in a C++ `bool`. -/
abbrev HIGH : Bool := true

/-- Arduino level `LOW` (`0x0`), as stored in a C++ `bool`. -/
abbrev LOW : Bool := false

/-- Line 33: `#define BUZZER_PIN 25`. -/
def BUZZER_PIN : Nat := 25

/-- Line 34: `#define BUTTON_PIN 18`. -/
def BUTTON_PIN : Nat := 18

/-- Line 55: `const char* topic_alert`. -/
def topic_alert : String := "ods3/fall/usuarioX/alert"

/-- Line 78: the client id passed to `client.connect`. -/
def clientId : String := "esp32-client-ods3"

/-- Line 82: the command topic subscribed after a successful connect. -/
def topic_cmd : String := "ods3/fall/usuarioX/cmd"

/-- Line 195: the payload string of the panic alert. -/
def panicPayload : String := "\x7b\"device_id\":\"usuarioX\",\"event\":\"panic\"\x7d"

/-- Line 206: the payload string of the fall alert. -/
def fallPayload : String := "\x7b\"device_id\":\"usuarioX\",\"event\":\"fall\"\x7d"

/-! ## Binary32 arithmetic, acceleration samples and the fall condition

`a.acceleration.x`, `.y`, `.z` and `mag` are C++ `float`s, IEEE 754 binary32 on
the ESP32.  Every finite binary32 value is an integer multiple of `2 ^ (-149)`,
the smallest subnormal, so a finite value is kept as that integer.  The two
zeros are not told apart: no operation of lines 170-172 and 204 can distinguish
them. -/

/-- A binary32 value: `finite k` is `k * 2 ^ (-149)`, `inf negative` is an
infinity with its sign, `nan` is any NaN. -/
inductive F32 where
  | finite (k : Int)
  | inf (negative : Bool)
  | nan
deriving DecidableEq

/-- Helper of `bitLen`: the number of binary digits of `n`, given fuel at least
that number. -/
def bitLenAux : Nat → Nat → Nat
  | 0, _ => 0
  | fuel + 1, n => if n = 0 then 0 else bitLenAux fuel (n / 2) + 1

/-- The number of binary digits of `n` (0 for 0): `2 ^ (bitLen n - 1) ≤ n < 2 ^ bitLen n`. -/
def bitLen (n : Nat) : Nat := bitLenAux n n

/-- Rounding to binary32, to nearest with ties to even, of the exact magnitude
`N * 2 ^ (-s)`; the result is in units of `2 ^ (-149)` and `149 ≤ s` is expected.
`d` is the number of low bits of `N` dropped: enough to leave a 24-bit
significand, and at least `s - 149` so that the result is a multiple of the
smallest subnormal. -/
def roundKey (N s : Nat) : Nat :=
  let d := max (bitLen N - 24) (s - 149)
  let q := N / 2 ^ d
  let r := N % 2 ^ d
  let q' := if 2 ^ d < 2 * r ∨ (2 * r = 2 ^ d ∧ q % 2 = 1) then q + 1 else q
  q' * 2 ^ (d - (s - 149))

/-- The rounded value of `N * 2 ^ (-s)`: a rounded magnitude of `2 ^ 128` or more
overflows to `+∞`. -/
def roundNat (N s : Nat) : F32 :=
  if 2 ^ 128 * 2 ^ 149 ≤ roundKey N s then .inf false else .finite (roundKey N s)

/-- Sign change. -/
def F32.neg : F32 → F32
  | .finite k => .finite (-k)
  | .inf n => .inf (!n)
  | .nan => .nan

/-- The rounded value of the signed quantity `z * 2 ^ (-s)`: rounding to nearest
is symmetric in the sign. -/
def roundInt (z : Int) (s : Nat) : F32 :=
  if z < 0 then (roundNat z.natAbs s).neg else roundNat z.natAbs s

/-- The `float` product `a * b`: the exact product, in units of `2 ^ (-298)`,
rounded once; `0 * ∞` is NaN. -/
def F32.mul : F32 → F32 → F32
  | .finite a, .finite b => roundInt (a * b) 298
  | .finite a, .inf n => if a = 0 then .nan else .inf (n != decide (a < 0))
  | .inf n, .finite b => if b = 0 then .nan else .inf (n != decide (b < 0))
  | .inf n, .inf m => .inf (n != m)
  | _, _ => .nan

/-- The `float` sum `a + b`: the exact sum rounded once; `∞ + (-∞)` is NaN. -/
def F32.add : F32 → F32 → F32
  | .finite a, .finite b => roundInt (a + b) 149
  | .finite _, .inf n => .inf n
  | .inf n, .finite _ => .inf n
  | .inf n, .inf m => if n = m then .inf n else .nan
  | _, _ => .nan

/-- The fused multiply-add `a * b + c`: exact product and sum, rounded once.  With
an infinite or NaN factor the product is not rounded, so the two-step value is
the fused one. -/
def F32.fma : F32 → F32 → F32 → F32
  | .finite a, .finite b, .finite c => roundInt (a * b + c * 2 ^ 149) 298
  | .finite _, .finite _, .inf n => .inf n
  | .finite _, .finite _, .nan => .nan
  | a, b, c => F32.add (F32.mul a b) c

/-- Helper of `isqrt`: binary search for the square root, bit `b - 1` downwards. -/
def isqrtAux : Nat → Nat → Nat → Nat
  | 0, _, r => r
  | b + 1, N, r =>
    if (r + 2 ^ b) * (r + 2 ^ b) ≤ N then isqrtAux b N (r + 2 ^ b) else isqrtAux b N r

/-- The integer square root: `isqrt N ^ 2 ≤ N < (isqrt N + 1) ^ 2`. -/
def isqrt (N : Nat) : Nat := isqrtAux (bitLen N / 2 + 1) N 0

/-- The square root of line 170, correctly rounded to binary32.  For
`k * 2 ^ (-149)` the exact root is `√(k * 2 ^ 149) * 2 ^ (-149)`; it is handed to
the rounding in units of `2 ^ (-150)` as twice the integer root plus a sticky
bit that is set when the root is not an integer, which rounds as the exact root
does.  (`sqrt` on a `float` argument may also be evaluated in `double` and
converted to `float` by the assignment to `mag`; for a square root that yields
the same value.)  The root of a negative number is NaN. -/
def F32.sqrt : F32 → F32
  | .finite k =>
    if k < 0 then .nan
    else roundNat (2 * isqrt (k.toNat * 2 ^ 149) +
      (if isqrt (k.toNat * 2 ^ 149) * isqrt (k.toNat * 2 ^ 149) = k.toNat * 2 ^ 149 then 0 else 1))
      150
  | .inf false => .inf false
  | .inf true => .nan
  | .nan => .nan

/-- The comparison `a > b` (exact; false when either side is NaN). -/
def F32.gt : F32 → F32 → Bool
  | .finite a, .finite b => decide (b < a)
  | .finite _, .inf n => n
  | .inf n, .finite _ => !n
  | .inf n, .inf m => !n && m
  | _, _ => false

/-- The value `m * 2 ^ (-e)`, for `e ≤ 149`; it is a binary32 value when
`|m| < 2 ^ 24`. -/
def F32.ofScaled (m : Int) (e : Nat) : F32 := .finite (m * ((2 ^ (149 - e) : Nat) : Int))

/-- Numerals denote the integer they write, as `25.0` does on line 204. -/
instance (n : Nat) : OfNat F32 n := ⟨.ofScaled n 0⟩

/-- One acceleration sample, `a.acceleration` of line 166. -/
structure Accel where
  x : F32
  y : F32
  z : F32
deriving DecidableEq

/-- Lines 170-172, the argument of `sqrt`: `x * x + y * y + z * z` in `float`,
each product and each sum rounded, the sums taken left to right. -/
def Accel.sumSq (a : Accel) : F32 :=
  F32.add (F32.add (F32.mul a.x a.x) (F32.mul a.y a.y)) (F32.mul a.z a.z)

/-- Lines 170-172: `float mag = sqrt(x*x + y*y + z*z)`. -/
def Accel.mag (a : Accel) : F32 := F32.sqrt a.sumSq

/-- Line 204: the fall condition `mag > 25.0`.  The comparison promotes `mag` to
`double`, which is exact. -/
def Accel.fall (a : Accel) : Prop := a.mag.gt 25 = true

instance Accel.decFall (a : Accel) : Decidable a.fall :=
  inferInstanceAs (Decidable (a.mag.gt 25 = true))

/-- The values that the argument of `sqrt` takes when the compiler contracts a
product and the sum that uses it into one fused multiply-add, for each choice of
the sums contracted and of the product fused in the inner sum. -/
def Accel.sumSqContracted (a : Accel) : List F32 :=
  [F32.add (F32.fma a.x a.x (F32.mul a.y a.y)) (F32.mul a.z a.z),
   F32.add (F32.fma a.y a.y (F32.mul a.x a.x)) (F32.mul a.z a.z),
   F32.fma a.z a.z (F32.add (F32.mul a.x a.x) (F32.mul a.y a.y)),
   F32.fma a.z a.z (F32.fma a.x a.x (F32.mul a.y a.y)),
   F32.fma a.z a.z (F32.fma a.y a.y (F32.mul a.x a.x))]

/-- The sample `(25, 0.001f, 0)`, where `0.001f = 8589935 * 2 ^ (-33)`: its exact
magnitude is just above 25. -/
def Accel.justAbove : Accel := ⟨25, .ofScaled 8589935 33, 0⟩

/-- The sample `(18.0425358, 14.4271603, 9.5563564)`, the binary32 values
`9459485 * 2 ^ (-19)`, `7563987 * 2 ^ (-19)` and `5010283 * 2 ^ (-19)`: its exact
magnitude is just below 25. -/
def Accel.justBelow : Accel :=
  ⟨.ofScaled 9459485 19, .ofScaled 7563987 19, .ofScaled 5010283 19⟩

/-! ## The platform -/

/-- One library call made by the sketch, with the answer it received. -/
inductive Call where
  | connected (result : Bool)
  | connect (id : String) (result : Bool)
  | subscribe (topic : String)
  | mqttLoop
  | getEvent (a : Accel)
  | digitalRead (pin : Nat) (level : Bool)
  | tone (pin frequency duration : Nat)
  | publish (topic payload : String) (result : Bool)
  | delay (ms : Nat)
deriving DecidableEq

/-- The environment of the sketch: `client` (PubSubClient), `mpu`, the GPIO pins,
`tone` and `delay`, each as a transition on the environment state `W`. -/
structure Platform (W : Type) where
  /-- `client.connected()` -/
  connected : W → Bool × W
  /-- `client.connect(id)` -/
  connect : String → W → Bool × W
  /-- `client.subscribe(topic)` (its result is discarded by the sketch) -/
  subscribe : String → W → W
  /-- `client.loop()` (its result is discarded by the sketch) -/
  mqttLoop : W → W
  /-- `client.publish(topic, payload)` -/
  publish : String → String → W → Bool × W
  /-- `mpu.getEvent(&a, &g, &temp)`: only `a.acceleration` is used -/
  getEvent : W → Accel × W
  /-- `digitalRead(pin)` converted to `bool` -/
  digitalRead : Nat → W → Bool × W
  /-- `tone(pin, frequency, duration)` -/
  tone : Nat → Nat → Nat → W → W
  /-- `delay(ms)` -/
  delay : Nat → W → W

/-- The running sketch: the environment state and the log of calls made so far,
each with the environment state in which it was made. -/
structure Machine (W : Type) where
  world : W
  log : List (W × Call)

/-- Record a call made in the current state and move to the next state. -/
def Machine.record {W : Type} (m : Machine W) (c : Call) (w : W) : Machine W :=
  ⟨w, m.log ++ [(m.world, c)]⟩

/-- The calls of a log, without the states. -/
def calls {W : Type} (l : List (W × Call)) : List Call := l.map Prod.snd

variable {W : Type}

/-- `client.connected()` -/
def clientConnected (P : Platform W) (m : Machine W) : Bool × Machine W :=
  ((P.connected m.world).1, m.record (.connected (P.connected m.world).1) (P.connected m.world).2)

/-- `client.connect(id)` -/
def clientConnect (P : Platform W) (id : String) (m : Machine W) : Bool × Machine W :=
  ((P.connect id m.world).1, m.record (.connect id (P.connect id m.world).1) (P.connect id m.world).2)

/-- `client.subscribe(topic)` -/
def clientSubscribe (P : Platform W) (topic : String) (m : Machine W) : Machine W :=
  m.record (.subscribe topic) (P.subscribe topic m.world)

/-- `client.loop()` -/
def clientLoop (P : Platform W) (m : Machine W) : Machine W :=
  m.record .mqttLoop (P.mqttLoop m.world)

/-- `client.publish(topic, payload)` -/
def clientPublish (P : Platform W) (topic payload : String) (m : Machine W) : Bool × Machine W :=
  ((P.publish topic payload m.world).1,
    m.record (.publish topic payload (P.publish topic payload m.world).1)
      (P.publish topic payload m.world).2)

/-- `mpu.getEvent(&a, &g, &temp)` -/
def mpuGetEvent (P : Platform W) (m : Machine W) : Accel × Machine W :=
  ((P.getEvent m.world).1, m.record (.getEvent (P.getEvent m.world).1) (P.getEvent m.world).2)

/-- `digitalRead(pin)` -/
def digitalRead (P : Platform W) (pin : Nat) (m : Machine W) : Bool × Machine W :=
  ((P.digitalRead pin m.world).1,
    m.record (.digitalRead pin (P.digitalRead pin m.world).1) (P.digitalRead pin m.world).2)

/-- `tone(pin, frequency, duration)` -/
def tone (P : Platform W) (pin frequency duration : Nat) (m : Machine W) : Machine W :=
  m.record (.tone pin frequency duration) (P.tone pin frequency duration m.world)

/-- `delay(ms)` -/
def delay (P : Platform W) (ms : Nat) (m : Machine W) : Machine W :=
  m.record (.delay ms) (P.delay ms m.world)

/-! ## The sketch -/

/-- Lines 73-89: `reconnectMQTT()`.  The `while` loop may run forever, so the
model takes the number of loop tests it may perform and returns `none` when
that number is used up. -/
def reconnectMQTT (P : Platform W) : Nat → Machine W → Option (Machine W)
  | 0, _ => none
  | fuel + 1, m =>
    let c := clientConnected P m
    if !c.1 then
      let k := clientConnect P clientId c.2
      if k.1 then
        reconnectMQTT P fuel (clientSubscribe P topic_cmd k.2)
      else
        reconnectMQTT P fuel (delay P 2000 k.2)
    else
      some c.2

/-- Lines 148-150: `beep()`. -/
def beep (P : Platform W) (m : Machine W) : Machine W :=
  tone P BUZZER_PIN 2000 200 m

/-- Line 185: `buttonState == LOW && lastButtonState == HIGH`. -/
def panicEdge (buttonState lastButtonState : Bool) : Bool :=
  buttonState == LOW && lastButtonState == HIGH

/-- Lines 155-213: one call of `loop()`.  The static `lastButtonState` is passed
in and its new value is returned with the machine.  `fuel` bounds the loop tests
of `reconnectMQTT`. -/
def loop (P : Platform W) (fuel : Nat) (lastButtonState : Bool) (w : W) :
    Option (Bool × Machine W) :=
  let c := clientConnected P ⟨w, []⟩
  match (if !c.1 then reconnectMQTT P fuel c.2 else some c.2) with
  | none => none
  | some m1 =>
    let m2 := clientLoop P m1
    let ev := mpuGetEvent P m2
    let a := ev.1
    let rd := digitalRead P BUTTON_PIN ev.2
    let buttonState := rd.1
    let panic := panicEdge buttonState lastButtonState
    let m3 := rd.2
    let m4 :=
      if panic then
        let m5 := beep P m3
        let payload := panicPayload
        let m6 := (clientPublish P topic_alert payload m5).2
        delay P 1000 m6
      else if a.fall then
        let m5 := beep P m3
        let payload := fallPayload
        let m6 := (clientPublish P topic_alert payload m5).2
        delay P 1000 m6
      else
        m3
    some (buttonState, delay P 50 m4)

/-- The Arduino core calls `loop()` forever; this runs it `n` times from the
environment state `w` and returns the log of each tick. -/
def ticks (P : Platform W) (fuel : Nat) : Nat → Bool → W → Option (List (List (W × Call)))
  | 0, _, _ => some []
  | n + 1, lastButtonState, w =>
    match loop P fuel lastButtonState w with
    | none => none
    | some r => (ticks P fuel n r.1 r.2.world).map (fun ls => r.2.log :: ls)

/-- Lines 181-186 alone, fed one button level per tick: the `panic` flag of each tick. -/
def panicFlags : Bool → List Bool → List Bool
  | _, [] => []
  | lastButtonState, buttonState :: rest =>
    panicEdge buttonState lastButtonState :: panicFlags buttonState rest

/-! ## Observations on a list of calls -/

/-- The `(topic, payload)` of every `client.publish` call, in order. -/
def publishes : List Call → List (String × String)
  | [] => []
  | .publish t p _ :: cs => (t, p) :: publishes cs
  | _ :: cs => publishes cs

/-- The argument of every `delay` call, in order. -/
def delays : List Call → List Nat
  | [] => []
  | .delay ms :: cs => ms :: delays cs
  | _ :: cs => delays cs

/-- The samples returned by `mpu.getEvent`, in order. -/
def samples : List Call → List Accel
  | [] => []
  | .getEvent a :: cs => a :: samples cs
  | _ :: cs => samples cs

/-- The levels returned by `digitalRead(BUTTON_PIN)`, in order. -/
def buttonReads : List Call → List Bool
  | [] => []
  | .digitalRead pin b :: cs => if pin = BUTTON_PIN then b :: buttonReads cs else buttonReads cs
  | _ :: cs => buttonReads cs

/-- The result of every `client.connect` call, in order. -/
def connects : List Call → List Bool
  | [] => []
  | .connect _ r :: cs => r :: connects cs
  | _ :: cs => connects cs

/-- The topic of every `client.subscribe` call, in order. -/
def subscribes : List Call → List String
  | [] => []
  | .subscribe t :: cs => t :: subscribes cs
  | _ :: cs => subscribes cs

/-- The call is a `client.publish`. -/
def Call.isPublish : Call → Bool
  | .publish _ _ _ => true
  | _ => false

/-! ## A scripted platform -/

/-- A test double for the hardware: a channel with a connection flag and a
script of connect outcomes, and queues of sensor and button readings. -/
structure Sim where
  /-- the answer of `client.connected()` -/
  conn : Bool
  /-- outcomes of the coming `client.connect` calls (none left: failure) -/
  connectOutcomes : List Bool
  /-- the link is lost while `client.loop()` runs -/
  dropOnService : Bool
  /-- what `client.publish` reports on a connected link -/
  publishOk : Bool
  /-- coming accelerometer samples (none left: at rest, all zero) -/
  accels : List Accel
  /-- coming button levels (none left: released, `HIGH`) -/
  levels : List Bool

/-- The platform over `Sim`. -/
def simPlatform : Platform Sim where
  connected := fun w => (w.conn, w)
  connect := fun _ w =>
    match w.connectOutcomes with
    | [] => (false, w)
    | ok :: rest => (ok, { w with conn := ok, connectOutcomes := rest })
  subscribe := fun _ w => w
  mqttLoop := fun w => { w with conn := w.conn && !w.dropOnService }
  publish := fun _ _ w => (w.conn && w.publishOk, w)
  getEvent := fun w => (w.accels.headD ⟨0, 0, 0⟩, { w with accels := w.accels.tail })
  digitalRead := fun _ w => (w.levels.headD HIGH, { w with levels := w.levels.tail })
  tone := fun _ _ _ w => w
  delay := fun _ w => w

/-! ## Decomposition of `loop()` used by the proofs -/

/-- Lines 157-159 of `loop()`: the connectivity check and the blocking reconnect. -/
def ensureLink (P : Platform W) (fuel : Nat) (w : W) : Option (Machine W) :=
  if !(clientConnected P ⟨w, []⟩).1 then reconnectMQTT P fuel (clientConnected P ⟨w, []⟩).2
  else some (clientConnected P ⟨w, []⟩).2

/-- The sample read by a tick whose connectivity phase ended in state `w`. -/
def sampleRead (P : Platform W) (w : W) : Accel :=
  (P.getEvent (P.mqttLoop w)).1

/-- The button level read by a tick whose connectivity phase ended in state `w`. -/
def levelRead (P : Platform W) (w : W) : Bool :=
  (P.digitalRead BUTTON_PIN (P.getEvent (P.mqttLoop w)).2).1

/-- The environment state in which a tick publishes, when it does, if its
connectivity phase ended in state `w`. -/
def publishState (P : Platform W) (w : W) : W :=
  P.tone BUZZER_PIN 2000 200 (P.digitalRead BUTTON_PIN (P.getEvent (P.mqttLoop w)).2).2

/-- Lines 160-212 of `loop()`: service, sampling, edge detection, alert, tick delay. -/
def sampleAndAlert (P : Platform W) (lastButtonState : Bool) (m1 : Machine W) :
    Bool × Machine W :=
  let rd := digitalRead P BUTTON_PIN (mpuGetEvent P (clientLoop P m1)).2
  let m4 :=
    if panicEdge rd.1 lastButtonState then
      delay P 1000 (clientPublish P topic_alert panicPayload (beep P rd.2)).2
    else if (mpuGetEvent P (clientLoop P m1)).1.fall then
      delay P 1000 (clientPublish P topic_alert fallPayload (beep P rd.2)).2
    else
      rd.2
  (rd.1, delay P 50 m4)

/-- The calls of the alert branch (lines 193-210) for a given `panic` flag,
sample and publish result. -/
def alertCalls (panic : Bool) (a : Accel) (r : Bool) : List Call :=
  if panic then
    [.tone BUZZER_PIN 2000 200, .publish topic_alert panicPayload r, .delay 1000]
  else if a.fall then
    [.tone BUZZER_PIN 2000 200, .publish topic_alert fallPayload r, .delay 1000]
  else
    []

/-- The shape of the calls of one tick: the connectivity phase `pre`, service and
the two reads, the alert branch, the tick delay. -/
def tickCalls (pre : List Call) (a : Accel) (b p res : Bool) : List Call :=
  pre ++ [.mqttLoop, .getEvent a, .digitalRead BUTTON_PIN b] ++ alertCalls p a res ++ [.delay 50]

/-- The calls that `reconnectMQTT` and the connectivity check can make. -/
def Call.isLink : Call → Bool
  | .connected _ => true
  | .connect _ _ => true
  | .subscribe _ => true
  | .delay ms => ms == 2000
  | _ => false

/-! ## Assumptions on a platform used by the theorems -/

/-- A set `Inv` of environment states that no call of the sketch leaves. -/
structure Platform.Stable (P : Platform W) (Inv : W → Prop) : Prop where
  connected : ∀ w, Inv w → Inv (P.connected w).2
  connect : ∀ id w, Inv w → Inv (P.connect id w).2
  subscribe : ∀ t w, Inv w → Inv (P.subscribe t w)
  mqttLoop : ∀ w, Inv w → Inv (P.mqttLoop w)
  publish : ∀ t p w, Inv w → Inv (P.publish t p w).2
  getEvent : ∀ w, Inv w → Inv (P.getEvent w).2
  digitalRead : ∀ pin w, Inv w → Inv (P.digitalRead pin w).2
  tone : ∀ p f d w, Inv w → Inv (P.tone p f d w)
  delay : ∀ ms w, Inv w → Inv (P.delay ms w)

/-- Within `Inv`, a channel that answers `client.connected()` with `true` still
does so after that query, after `client.loop()`, after a sensor or button read
and after `tone`: the link is only lost during `delay`, `publish`, `connect`
or `subscribe`, if at all. -/
structure LinkHeld (P : Platform W) (Inv : W → Prop) : Prop where
  stable : P.Stable Inv
  connected_keeps : ∀ w, Inv w → (P.connected w).1 = true →
    (P.connected (P.connected w).2).1 = true
  mqttLoop_keeps : ∀ w, Inv w → (P.connected w).1 = true →
    (P.connected (P.mqttLoop w)).1 = true
  getEvent_keeps : ∀ w, Inv w → (P.connected w).1 = true →
    (P.connected (P.getEvent w).2).1 = true
  digitalRead_keeps : ∀ pin w, Inv w → (P.connected w).1 = true →
    (P.connected (P.digitalRead pin w).2).1 = true
  tone_keeps : ∀ p f d w, Inv w → (P.connected w).1 = true →
    (P.connected (P.tone p f d w)).1 = true

/-- The premise of the reconnect scenario, on any platform: the channel answers
`client.connected()` with `false`, `client.connect` fails on the first `n`
attempts of `reconnectMQTT` and succeeds on the next, after which (and after the
subscribe) `client.connected()` answers `true`. -/
def connectsAfter (P : Platform W) : Nat → W → Prop
  | 0, w =>
    (P.connected w).1 = false ∧
    (P.connect clientId (P.connected w).2).1 = true ∧
    (P.connected (P.subscribe topic_cmd (P.connect clientId (P.connected w).2).2)).1 = true
  | n + 1, w =>
    (P.connected w).1 = false ∧
    (P.connect clientId (P.connected w).2).1 = false ∧
    connectsAfter P n (P.delay 2000 (P.connect clientId (P.connected w).2).2)

/-- The same platform, except that `client.publish` reports `f topic payload w`
instead of its own result. -/
def Platform.withPublishResult (P : Platform W) (f : String → String → W → Bool) :
    Platform W :=
  { P with publish := fun t p w => (f t p w, (P.publish t p w).2) }

/-- The call with the result of a `client.publish` blanked out. -/
def Call.eraseResult : Call → Call
  | .publish t p _ => .publish t p false
  | c => c

/-- What a tick leaves behind, with the results of `client.publish` blanked out:
the new `lastButtonState`, the environment state and the log. -/
def eraseResults (r : Bool × Machine W) : Bool × W × List (W × Call) :=
  (r.1, r.2.world, r.2.log.map (fun e => (e.1, e.2.eraseResult)))

/-- The result of every `client.publish` call, in order. -/
def publishResults : List Call → List Bool
  | [] => []
  | .publish _ _ r :: cs => r :: publishResults cs
  | _ :: cs => publishResults cs

/-- A connected scripted platform state with the given sample and level queues. -/
def Sim.online (accels : List Accel) (levels : List Bool) : Sim :=
  { conn := true, connectOutcomes := [], dropOnService := false, publishOk := true,
    accels := accels, levels := levels }

/-- A disconnected scripted platform state with the given connect outcomes. -/
def Sim.offline (outcomes : List Bool) (accels : List Accel) (levels : List Bool) : Sim :=
  { conn := false, connectOutcomes := outcomes, dropOnService := false, publishOk := true,
    accels := accels, levels := levels }

/-- A connected scripted platform state whose link is lost during `client.loop()`,
with the button pressed. -/
def Sim.dropping : Sim :=
  { conn := true, connectOutcomes := [], dropOnService := true, publishOk := true,
    accels := [], levels := [LOW] }

/-- A connected scripted platform state, button pressed, whose `client.publish`
reports failure. -/
def Sim.rejecting : Sim :=
  { conn := true, connectOutcomes := [], dropOnService := false, publishOk := false,
    accels := [], levels := [LOW] }

/-- The calls of `reconnectMQTT` when `client.connect` fails `n` times and then
succeeds: `n` rounds of test, failed connect and backoff, then test, connect,
subscribe and the final test. -/
def backoffTrace (n : Nat) : List Call :=
  (List.replicate n [Call.connected false, .connect clientId false, .delay 2000]).flatten ++
    [.connected false, .connect clientId true, .subscribe topic_cmd, .connected true]

@[simp] theorem record_log (m : Machine W) (c : Call) (w : W) :
    (m.record c w).log = m.log ++ [(m.world, c)] := rfl

@[simp] theorem record_world (m : Machine W) (c : Call) (w : W) :
    (m.record c w).world = w := rfl

@[simp] theorem calls_nil : calls ([] : List (W × Call)) = [] := rfl

@[simp] theorem calls_cons (e : W × Call) (l : List (W × Call)) :
    calls (e :: l) = e.2 :: calls l := rfl

@[simp] theorem calls_append (l₁ l₂ : List (W × Call)) :
    calls (l₁ ++ l₂) = calls l₁ ++ calls l₂ := by
  simp [calls]

theorem publishes_append (l₁ l₂ : List Call) :
    publishes (l₁ ++ l₂) = publishes l₁ ++ publishes l₂ := by
  induction l₁ with
  | nil => rfl
  | cons c cs ih => cases c <;> simp [publishes, ih]

theorem delays_append (l₁ l₂ : List Call) :
    delays (l₁ ++ l₂) = delays l₁ ++ delays l₂ := by
  induction l₁ with
  | nil => rfl
  | cons c cs ih => cases c <;> simp [delays, ih]

theorem samples_append (l₁ l₂ : List Call) :
    samples (l₁ ++ l₂) = samples l₁ ++ samples l₂ := by
  induction l₁ with
  | nil => rfl
  | cons c cs ih => cases c <;> simp [samples, ih]

theorem buttonReads_append (l₁ l₂ : List Call) :
    buttonReads (l₁ ++ l₂) = buttonReads l₁ ++ buttonReads l₂ := by
  induction l₁ with
  | nil => rfl
  | cons c cs ih =>
    cases c <;> simp [buttonReads, ih]
    split <;> simp

/-- `loop()` is its connectivity phase followed by the rest of the tick. -/
theorem loop_eq (P : Platform W) (fuel : Nat) (last : Bool) (w : W) :
    loop P fuel last w = (ensureLink P fuel w).map (sampleAndAlert P last) := by
  unfold loop ensureLink
  dsimp only
  split
  · next h => rw [h]; rfl
  · next m1 h => rw [h]; rfl

theorem sampleAndAlert_calls (P : Platform W) (last : Bool) (m1 : Machine W) :
    ∃ r, calls (sampleAndAlert P last m1).2.log =
      calls m1.log ++ [.mqttLoop, .getEvent (sampleRead P m1.world),
        .digitalRead BUTTON_PIN (levelRead P m1.world)] ++
      alertCalls (panicEdge (levelRead P m1.world) last) (sampleRead P m1.world) r ++
      [.delay 50] := by
  unfold sampleAndAlert alertCalls
  simp only [digitalRead, mpuGetEvent, clientLoop, clientPublish, beep, tone, delay,
    record_log, record_world, calls_append, calls_cons, calls_nil, sampleRead, levelRead]
  split_ifs
  · exact ⟨(P.publish topic_alert panicPayload (publishState P m1.world)).1, by
      simp [publishState]⟩
  · exact ⟨(P.publish topic_alert fallPayload (publishState P m1.world)).1, by
      simp [publishState]⟩
  · exact ⟨false, by simp⟩


/-! ## The connectivity phase -/

theorem publishes_of_isLink (l : List Call) (h : ∀ c ∈ l, c.isLink = true) :
    publishes l = [] := by
  induction l with
  | nil => rfl
  | cons c cs ih =>
    have hc := h c (List.mem_cons_self _ _)
    have ih' := ih (fun d hd => h d (List.mem_cons_of_mem _ hd))
    cases c <;> simp_all [publishes, Call.isLink]

theorem samples_of_isLink (l : List Call) (h : ∀ c ∈ l, c.isLink = true) :
    samples l = [] := by
  induction l with
  | nil => rfl
  | cons c cs ih =>
    have hc := h c (List.mem_cons_self _ _)
    have ih' := ih (fun d hd => h d (List.mem_cons_of_mem _ hd))
    cases c <;> simp_all [samples, Call.isLink]

theorem buttonReads_of_isLink (l : List Call) (h : ∀ c ∈ l, c.isLink = true) :
    buttonReads l = [] := by
  induction l with
  | nil => rfl
  | cons c cs ih =>
    have hc := h c (List.mem_cons_self _ _)
    have ih' := ih (fun d hd => h d (List.mem_cons_of_mem _ hd))
    cases c <;> simp_all [buttonReads, Call.isLink]

theorem delays_of_isLink (l : List Call) (h : ∀ c ∈ l, c.isLink = true) :
    ∀ d ∈ delays l, d = 2000 := by
  induction l with
  | nil => simp [delays]
  | cons c cs ih =>
    have hc := h c (List.mem_cons_self _ _)
    have ih' := ih (fun d hd => h d (List.mem_cons_of_mem _ hd))
    cases c with
    | delay ms =>
      intro d hd
      simp only [delays, List.mem_cons] at hd
      rcases hd with rfl | hd
      · simpa [Call.isLink] using hc
      · exact ih' d hd
    | _ => simpa [delays] using ih'

/-- When `reconnectMQTT` returns, it has only made link calls, the last of which
is a `client.connected()` that answered `true`. -/
theorem reconnectMQTT_spec (P : Platform W) (fuel : Nat) (m m1 : Machine W)
    (h : reconnectMQTT P fuel m = some m1) :
    ∃ ext w, m1.log = m.log ++ ext ++ [(w, .connected true)] ∧
      (P.connected w).1 = true ∧ m1.world = (P.connected w).2 ∧
      ∀ c ∈ calls ext, c.isLink = true := by
  induction fuel generalizing m with
  | zero => simp [reconnectMQTT] at h
  | succ fuel ih =>
    unfold reconnectMQTT at h
    dsimp only at h
    split_ifs at h with h1 h2
    · obtain ⟨ext, w, hlog, hw, hworld, hext⟩ := ih _ h
      refine ⟨[(m.world, .connected (P.connected m.world).1),
        ((P.connected m.world).2, .connect clientId (P.connect clientId (P.connected m.world).2).1),
        ((P.connect clientId (P.connected m.world).2).2, .subscribe topic_cmd)] ++ ext,
        w, ?_, hw, hworld, ?_⟩
      · rw [hlog]
        simp [clientSubscribe, clientConnect, clientConnected]
      · intro c hc
        simp only [calls_append, calls_cons, calls_nil, List.mem_append, List.mem_cons,
          List.mem_singleton, List.not_mem_nil, or_false] at hc
        rcases hc with (rfl | rfl | rfl) | hc
        · rfl
        · rfl
        · rfl
        · exact hext c hc
    · obtain ⟨ext, w, hlog, hw, hworld, hext⟩ := ih _ h
      refine ⟨[(m.world, .connected (P.connected m.world).1),
        ((P.connected m.world).2, .connect clientId (P.connect clientId (P.connected m.world).2).1),
        ((P.connect clientId (P.connected m.world).2).2, .delay 2000)] ++ ext,
        w, ?_, hw, hworld, ?_⟩
      · rw [hlog]
        simp [delay, clientConnect, clientConnected]
      · intro c hc
        simp only [calls_append, calls_cons, calls_nil, List.mem_append, List.mem_cons,
          List.mem_singleton, List.not_mem_nil, or_false] at hc
        rcases hc with (rfl | rfl | rfl) | hc
        · rfl
        · rfl
        · rfl
        · exact hext c hc
    · simp only [Option.some.injEq] at h
      subst h
      simp only [Bool.not_eq_true', Bool.not_eq_false] at h1
      have h1' : (P.connected m.world).1 = true := h1
      refine ⟨[], m.world, ?_, h1', rfl, by simp⟩
      simp [clientConnected, h1']

/-- The connectivity phase of a tick that finds the channel connected. -/
theorem ensureLink_connected (P : Platform W) (fuel : Nat) (w : W)
    (h : (P.connected w).1 = true) :
    ensureLink P fuel w = some ⟨(P.connected w).2, [(w, .connected true)]⟩ := by
  simp [ensureLink, clientConnected, h, Machine.record]

/-- When the connectivity phase returns, it has only made link calls, the last
of which is a `client.connected()` that answered `true`. -/
theorem ensureLink_spec (P : Platform W) (fuel : Nat) (w : W) (m1 : Machine W)
    (h : ensureLink P fuel w = some m1) :
    ∃ ext w1, m1.log = ext ++ [(w1, .connected true)] ∧
      (P.connected w1).1 = true ∧ m1.world = (P.connected w1).2 ∧
      ∀ c ∈ calls ext, c.isLink = true := by
  unfold ensureLink at h
  split_ifs at h with h1
  · obtain ⟨ext, w1, hlog, hw, hworld, hext⟩ := reconnectMQTT_spec P fuel _ m1 h
    refine ⟨[(w, .connected (P.connected w).1)] ++ ext, w1, ?_, hw, hworld, ?_⟩
    · rw [hlog]; simp [clientConnected]
    · intro c hc
      simp only [calls_append, calls_cons, calls_nil, List.mem_append, List.mem_cons,
        List.mem_singleton, List.not_mem_nil, or_false] at hc
      rcases hc with rfl | hc
      · rfl
      · exact hext c hc
  · simp only [Option.some.injEq] at h
    subst h
    simp only [Bool.not_eq_true', Bool.not_eq_false] at h1
    have h1' : (P.connected w).1 = true := h1
    refine ⟨[], w, ?_, h1', rfl, by simp⟩
    simp [clientConnected, h1']


/-! ## Edge detection of the panic button -/

theorem panicFlags_length (last : Bool) (levels : List Bool) :
    (panicFlags last levels).length = levels.length := by
  induction levels generalizing last with
  | nil => rfl
  | cons b bs ih => simp [panicFlags, ih]

theorem panicFlags_getD (last : Bool) (levels : List Bool) (i : Nat) (hi : i < levels.length) :
    (panicFlags last levels).getD i false =
      panicEdge (levels.getD i HIGH) (if i = 0 then last else levels.getD (i - 1) HIGH) := by
  induction levels generalizing last i with
  | nil => simp at hi
  | cons b bs ih =>
    cases i with
    | zero => simp [panicFlags]
    | succ j =>
      have hj : j < bs.length := by simpa using hi
      simp only [panicFlags, List.getD_cons_succ, ih b j hj]
      cases j with
      | zero => simp
      | succ k => simp

/-- C1: fed one button level per tick from `lastButtonState = HIGH`, the `panic`
flag of tick `i` is true exactly when the level of tick `i` is `LOW` and the level
of tick `i - 1` (`HIGH` before tick 0) is `HIGH`; it is false whenever the level
repeats the previous one; on `[HIGH, LOW, LOW, HIGH, LOW]` it is true at indices
1 and 4 only. -/
theorem panic_edge_detection :
    (∀ (levels : List Bool) (i : Nat), i < levels.length →
      (panicFlags HIGH levels).length = levels.length ∧
      ((panicFlags HIGH levels).getD i false = true ↔
        levels.getD i HIGH = LOW ∧
          (if i = 0 then HIGH else levels.getD (i - 1) HIGH) = HIGH) ∧
      ((if i = 0 then HIGH else levels.getD (i - 1) HIGH) = levels.getD i HIGH →
        (panicFlags HIGH levels).getD i false = false)) ∧
    panicFlags HIGH [HIGH, LOW, LOW, HIGH, LOW] = [false, true, false, false, true] := by
  refine ⟨?_, by decide⟩
  intro levels i hi
  refine ⟨panicFlags_length _ _, ?_, ?_⟩
  · rw [panicFlags_getD HIGH levels i hi]
    simp [panicEdge]
  · intro h
    rw [panicFlags_getD HIGH levels i hi, h]
    cases levels.getD i HIGH <;> rfl

theorem panic_edge_detection_witness :
    2 < [HIGH, LOW, LOW].length ∧
    (panicFlags HIGH [HIGH, LOW, LOW]).length = [HIGH, LOW, LOW].length ∧
    ((panicFlags HIGH [HIGH, LOW, LOW]).getD 2 false = true ↔
      [HIGH, LOW, LOW].getD 2 HIGH = LOW ∧
        (if 2 = 0 then HIGH else [HIGH, LOW, LOW].getD (2 - 1) HIGH) = HIGH) ∧
    ((if 2 = 0 then HIGH else [HIGH, LOW, LOW].getD (2 - 1) HIGH) = [HIGH, LOW, LOW].getD 2 HIGH →
      (panicFlags HIGH [HIGH, LOW, LOW]).getD 2 false = false) :=
  ⟨by decide, panic_edge_detection.1 [HIGH, LOW, LOW] 2 (by decide)⟩

/-! ## The fall condition in binary32 -/

theorem bitLenAux_spec (fuel n : Nat) (h : n < 2 ^ fuel) :
    n < 2 ^ bitLenAux fuel n ∧ (n ≠ 0 → 2 ^ (bitLenAux fuel n - 1) ≤ n) := by
  induction fuel generalizing n with
  | zero =>
    have : n = 0 := by simpa using h
    subst this
    simp [bitLenAux]
  | succ fuel ih =>
    unfold bitLenAux
    by_cases hn : n = 0
    · simp [hn]
    · simp only [hn, if_false]
      have h2 : n / 2 < 2 ^ fuel := by
        rw [Nat.div_lt_iff_lt_mul (by norm_num)]
        rw [pow_succ] at h
        exact h
      obtain ⟨ih1, ih2⟩ := ih (n / 2) h2
      constructor
      · rw [pow_succ]
        have := Nat.lt_mul_of_div_lt ih1 (by norm_num : 0 < 2)
        omega
      · intro _
        simp only [Nat.add_sub_cancel]
        by_cases h0 : n / 2 = 0
        · have hb : bitLenAux fuel (n / 2) = 0 := by
            rw [h0]; cases fuel <;> simp [bitLenAux]
          rw [hb]; simp; omega
        · have := ih2 h0
          have hpos : 0 < bitLenAux fuel (n / 2) := by
            by_contra hc
            have hz : bitLenAux fuel (n / 2) = 0 := by omega
            rw [hz] at ih1
            simp at ih1
            exact h0 ih1
          have e : 2 ^ bitLenAux fuel (n / 2) = 2 ^ (bitLenAux fuel (n / 2) - 1) * 2 := by
            rw [← pow_succ]; congr 1; omega
          rw [e]
          have := Nat.div_mul_le_self n 2
          nlinarith

theorem lt_two_pow_bitLen (n : Nat) : n < 2 ^ bitLen n :=
  (bitLenAux_spec n n (Nat.lt_two_pow n)).1

theorem le_bitLen_of_le (n b : Nat) (h : 2 ^ b ≤ n) : b + 1 ≤ bitLen n := by
  by_contra hc
  have h1 := lt_two_pow_bitLen n
  have h2 : 2 ^ bitLen n ≤ 2 ^ b := Nat.pow_le_pow_right (by norm_num) (by omega)
  omega


theorem add_roundNat_inf (N s : Nat) : F32.add (roundNat N s) (.inf false) = .inf false := by
  unfold roundNat
  by_cases h : 2 ^ 128 * 2 ^ 149 ≤ roundKey N s
  · rw [if_pos h]; simp [F32.add]
  · rw [if_neg h]; simp [F32.add]

set_option maxRecDepth 100000 in
set_option exponentiation.threshold 600 in
/-- Under every contraction of lines 170-172 into fused multiply-adds the sample
`Accel.justAbove` is still not classified as a fall. -/
theorem justAbove_contracted :
    ∀ s ∈ Accel.justAbove.sumSqContracted, (F32.sqrt s).gt 25 = false := by decide

set_option maxRecDepth 100000 in
set_option exponentiation.threshold 600 in
/-- Under every contraction of lines 170-172 into fused multiply-adds the sample
`Accel.justBelow` is still classified as a fall. -/
theorem justBelow_contracted :
    ∀ s ∈ Accel.justBelow.sumSqContracted, (F32.sqrt s).gt 25 = true := by decide

theorem reconnectMQTT_inv (P : Platform W) (Inv : W → Prop) (hst : P.Stable Inv)
    (fuel : Nat) (m m1 : Machine W) (hm : Inv m.world)
    (h : reconnectMQTT P fuel m = some m1) : Inv m1.world := by
  induction fuel generalizing m with
  | zero => simp [reconnectMQTT] at h
  | succ fuel ih =>
    unfold reconnectMQTT at h
    dsimp only at h
    split_ifs at h with h1 h2
    · exact ih _ (hst.subscribe _ _ (hst.connect _ _ (hst.connected _ hm))) h
    · exact ih _ (hst.delay _ _ (hst.connect _ _ (hst.connected _ hm))) h
    · simp only [Option.some.injEq] at h
      subst h
      exact hst.connected _ hm

theorem ensureLink_inv (P : Platform W) (Inv : W → Prop) (hst : P.Stable Inv)
    (fuel : Nat) (w : W) (m1 : Machine W) (hw : Inv w)
    (h : ensureLink P fuel w = some m1) : Inv m1.world := by
  unfold ensureLink at h
  split_ifs at h with h1
  · exact reconnectMQTT_inv P Inv hst fuel _ m1 (hst.connected _ hw) h
  · simp only [Option.some.injEq] at h
    subst h
    exact hst.connected _ hw

theorem publishState_inv (P : Platform W) (Inv : W → Prop) (hst : P.Stable Inv)
    (w : W) (hw : Inv w) : Inv (publishState P w) :=
  hst.tone _ _ _ _ (hst.digitalRead _ _ (hst.getEvent _ (hst.mqttLoop _ hw)))

theorem sampleAndAlert_inv (P : Platform W) (Inv : W → Prop) (hst : P.Stable Inv)
    (last : Bool) (m1 : Machine W) (hm : Inv m1.world) :
    Inv (sampleAndAlert P last m1).2.world := by
  have hp := publishState_inv P Inv hst m1.world hm
  have hr : Inv (P.digitalRead BUTTON_PIN (P.getEvent (P.mqttLoop m1.world)).2).2 :=
    hst.digitalRead _ _ (hst.getEvent _ (hst.mqttLoop _ hm))
  unfold sampleAndAlert
  dsimp only
  split_ifs
  · exact hst.delay _ _ (hst.delay _ _ (hst.publish _ _ _ hp))
  · exact hst.delay _ _ (hst.delay _ _ (hst.publish _ _ _ hp))
  · exact hst.delay _ _ hr

theorem loop_inv (P : Platform W) (Inv : W → Prop) (hst : P.Stable Inv)
    (fuel : Nat) (last : Bool) (w : W) (r : Bool × Machine W) (hw : Inv w)
    (h : loop P fuel last w = some r) : Inv r.2.world := by
  rw [loop_eq] at h
  cases h1 : ensureLink P fuel w with
  | none => simp [h1] at h
  | some m1 =>
    simp only [h1, Option.map_some', Option.some.injEq] at h
    subst h
    exact sampleAndAlert_inv P Inv hst last m1 (ensureLink_inv P Inv hst fuel w m1 hw h1)

/-! ## Publishing and the state of the link -/

theorem sampleAndAlert_publish_state (P : Platform W) (last : Bool) (m1 : Machine W)
    (e : W × Call) (he : e ∈ (sampleAndAlert P last m1).2.log) (hp : e.2.isPublish = true) :
    e ∈ m1.log ∨ e.1 = publishState P m1.world := by
  unfold sampleAndAlert at he
  simp only [digitalRead, mpuGetEvent, clientLoop, clientPublish, beep, tone, delay,
    record_log, record_world] at he
  split_ifs at he
  · simp only [record_log, record_world, List.mem_append, List.mem_singleton] at he
    rcases he with ((((((h | h) | h) | h) | h) | h) | h) | h
    · exact Or.inl h
    all_goals first
      | exact Or.inr (by rw [h]; rfl)
      | (rw [h] at hp; simp [Call.isPublish] at hp)
  · simp only [record_log, record_world, List.mem_append, List.mem_singleton] at he
    rcases he with ((((((h | h) | h) | h) | h) | h) | h) | h
    · exact Or.inl h
    all_goals first
      | exact Or.inr (by rw [h]; rfl)
      | (rw [h] at hp; simp [Call.isPublish] at hp)
  · simp only [record_log, record_world, List.mem_append, List.mem_singleton] at he
    rcases he with (((h | h) | h) | h) | h
    · exact Or.inl h
    all_goals (rw [h] at hp; simp [Call.isPublish] at hp)


theorem isPublish_of_isLink (c : Call) (h : c.isLink = true) : c.isPublish = false := by
  cases c <;> simp_all [Call.isLink, Call.isPublish]

theorem ensureLink_no_publish (P : Platform W) (fuel : Nat) (w : W) (m1 : Machine W)
    (h : ensureLink P fuel w = some m1) (e : W × Call) (he : e ∈ m1.log) :
    e.2.isPublish = false := by
  obtain ⟨ext, w1, hlog, -, -, hext⟩ := ensureLink_spec P fuel w m1 h
  rw [hlog] at he
  simp only [List.mem_append, List.mem_singleton] at he
  rcases he with he | rfl
  · exact isPublish_of_isLink _ (hext _ (List.mem_map_of_mem Prod.snd he))
  · rfl

theorem reconnectMQTT_linked (P : Platform W) (Inv : W → Prop) (hl : LinkHeld P Inv)
    (fuel : Nat) (m m1 : Machine W) (hm : Inv m.world)
    (h : reconnectMQTT P fuel m = some m1) : (P.connected m1.world).1 = true := by
  have hst := hl.stable
  induction fuel generalizing m with
  | zero => simp [reconnectMQTT] at h
  | succ fuel ih =>
    unfold reconnectMQTT at h
    dsimp only at h
    split_ifs at h with h1 h2
    · exact ih _ (hst.subscribe _ _ (hst.connect _ _ (hst.connected _ hm))) h
    · exact ih _ (hst.delay _ _ (hst.connect _ _ (hst.connected _ hm))) h
    · simp only [Option.some.injEq] at h
      subst h
      simp only [Bool.not_eq_true', Bool.not_eq_false] at h1
      exact hl.connected_keeps _ hm h1

theorem ensureLink_linked (P : Platform W) (Inv : W → Prop) (hl : LinkHeld P Inv)
    (fuel : Nat) (w : W) (m1 : Machine W) (hw : Inv w)
    (h : ensureLink P fuel w = some m1) : (P.connected m1.world).1 = true := by
  unfold ensureLink at h
  split_ifs at h with h1
  · exact reconnectMQTT_linked P Inv hl fuel _ m1 (hl.stable.connected _ hw) h
  · simp only [Option.some.injEq] at h
    subst h
    simp only [Bool.not_eq_true', Bool.not_eq_false] at h1
    exact hl.connected_keeps _ hw h1

/-- In a tick on a platform that holds the link, every `client.publish` is made
in a state in which `client.connected()` answers `true`. -/
theorem loop_publish_linked (P : Platform W) (Inv : W → Prop) (hl : LinkHeld P Inv)
    (fuel : Nat) (last : Bool) (w : W) (hw : Inv w) (r : Bool × Machine W)
    (h : loop P fuel last w = some r) (e : W × Call) (he : e ∈ r.2.log)
    (hp : e.2.isPublish = true) : (P.connected e.1).1 = true := by
  rw [loop_eq] at h
  cases h1 : ensureLink P fuel w with
  | none => simp [h1] at h
  | some m1 =>
    simp only [h1, Option.map_some', Option.some.injEq] at h
    subst h
    have hm1 : Inv m1.world := ensureLink_inv P Inv hl.stable fuel w m1 hw h1
    rcases sampleAndAlert_publish_state P last m1 e he hp with hin | hst
    · rw [ensureLink_no_publish P fuel w m1 h1 e hin] at hp
      exact absurd hp (by decide)
    · rw [hst]
      have hst := hl.stable
      have c0 : (P.connected m1.world).1 = true := ensureLink_linked P Inv hl fuel w m1 hw h1
      have i1 := hst.mqttLoop _ hm1
      have c1 := hl.mqttLoop_keeps _ hm1 c0
      have i2 := hst.getEvent _ i1
      have c2 := hl.getEvent_keeps _ i1 c1
      have i3 := hst.digitalRead BUTTON_PIN _ i2
      have c3 := hl.digitalRead_keeps BUTTON_PIN _ i2 c2
      exact hl.tone_keeps _ _ _ _ i3 c3


theorem ticks_succ (P : Platform W) (fuel n : Nat) (last : Bool) (w : W)
    (r : Bool × Machine W) (h : loop P fuel last w = some r) :
    ticks P fuel (n + 1) last w = (ticks P fuel n r.1 r.2.world).map (fun ls => r.2.log :: ls) := by
  simp [ticks, h]

theorem ticks_succ_some (P : Platform W) (fuel n : Nat) (last : Bool) (w : W)
    (logs : List (List (W × Call))) (h : ticks P fuel (n + 1) last w = some logs) :
    ∃ r rest, loop P fuel last w = some r ∧ ticks P fuel n r.1 r.2.world = some rest ∧
      logs = r.2.log :: rest := by
  cases hr : loop P fuel last w with
  | none => simp [ticks, hr] at h
  | some r =>
    rw [ticks_succ P fuel n last w r hr] at h
    cases ht : ticks P fuel n r.1 r.2.world with
    | none => simp [ht] at h
    | some rest =>
      simp only [ht, Option.map_some', Option.some.injEq] at h
      exact ⟨r, rest, rfl, ht, h.symm⟩

theorem simPlatform_linkHeld :
    LinkHeld simPlatform (fun w => w.dropOnService = false) := by
  refine ⟨⟨?_, ?_, ?_, ?_, ?_, ?_, ?_, ?_, ?_⟩, ?_, ?_, ?_, ?_, ?_⟩
  · intro w h; exact h
  · intro id w h
    show (match w.connectOutcomes with
      | [] => (false, w)
      | ok :: rest => (ok, { w with conn := ok, connectOutcomes := rest })).2.dropOnService = false
    split <;> exact h
  · intro t w h; exact h
  · intro w h; exact h
  · intro t p w h; exact h
  · intro w h; exact h
  · intro pin w h; exact h
  · intro p f d w h; exact h
  · intro ms w h; exact h
  · intro w _ h; exact h
  · intro w h hc
    have hc' : w.conn = true := hc
    show (w.conn && !w.dropOnService) = true
    simp [h, hc']
  · intro w _ h; exact h
  · intro pin w _ h; exact h
  · intro p f d w _ h; exact h

/-- C3 (as amended): on a platform that holds the link between the connectivity
check and the alert branch, every `client.publish` of every tick is made in a state
in which `client.connected()` answers `true`. -/
theorem publish_only_while_link_held (P : Platform W) (Inv : W → Prop)
    (hl : LinkHeld P Inv) (fuel n : Nat) (last : Bool) (w : W) (hw : Inv w)
    (logs : List (List (W × Call))) (hrun : ticks P fuel n last w = some logs) :
    ∀ l ∈ logs, ∀ e ∈ l, e.2.isPublish = true → (P.connected e.1).1 = true := by
  induction n generalizing last w logs with
  | zero =>
    simp only [ticks, Option.some.injEq] at hrun
    subst hrun
    simp
  | succ n ih =>
    obtain ⟨r, rest, hr, hrest, rfl⟩ := ticks_succ_some P fuel n last w logs hrun
    intro l hl' e he hp
    rcases List.mem_cons.1 hl' with rfl | hin
    · exact loop_publish_linked P Inv hl fuel last w hw r hr e he hp
    · exact ih r.1 r.2.world (loop_inv P Inv hl.stable fuel last w r hw hr) rest hrest l hin e he hp

theorem publish_only_while_link_held_witness :
    ∃ logs, ticks simPlatform 0 2 HIGH (Sim.online [] [LOW]) = some logs ∧
      (∃ l ∈ logs, ∃ e ∈ l, e.2.isPublish = true) ∧
      ∀ l ∈ logs, ∀ e ∈ l, e.2.isPublish = true → (simPlatform.connected e.1).1 = true :=
  ⟨_, rfl,
    ⟨_, List.mem_cons_self _ _,
      ((⟨true, [], false, true, [], []⟩ : Sim), Call.publish topic_alert panicPayload true),
      List.get?_mem (n := 5) rfl, rfl⟩,
    publish_only_while_link_held simPlatform _ simPlatform_linkHeld 0 2 HIGH
      (Sim.online [] [LOW]) rfl _ rfl⟩

/-- C3 (counterexample): the scripted channel is connected at the top of the tick
and drops during `client.loop()`; the button is pressed, and the sketch calls
`client.publish` in a state in which `client.connected()` answers `false`. -/
theorem publish_while_disconnected :
    (loop simPlatform 0 HIGH Sim.dropping).map
        (fun r => r.2.log.map (fun e => (e.2, (simPlatform.connected e.1).1))) =
      some [(.connected true, true), (.mqttLoop, true), (.getEvent ⟨0, 0, 0⟩, false),
        (.digitalRead BUTTON_PIN LOW, false), (.tone BUZZER_PIN 2000 200, false),
        (.publish topic_alert panicPayload false, false), (.delay 1000, false),
        (.delay 50, false)] ∧
    ∃ r, loop simPlatform 0 HIGH Sim.dropping = some r ∧
      ∃ e ∈ r.2.log, e.2.isPublish = true ∧ (simPlatform.connected e.1).1 = false :=
  ⟨rfl, _, rfl,
    ((⟨false, [], true, true, [], []⟩ : Sim), Call.publish topic_alert panicPayload false),
    List.get?_mem (n := 5) rfl, rfl, rfl⟩


/-! ## The calls of one tick -/

theorem publishes_alertCalls (p : Bool) (a : Accel) (res : Bool) :
    publishes (alertCalls p a res) =
      if p then [(topic_alert, panicPayload)]
      else if a.fall then [(topic_alert, fallPayload)] else [] := by
  unfold alertCalls
  split_ifs <;> rfl

theorem delays_alertCalls (p : Bool) (a : Accel) (res : Bool) :
    delays (alertCalls p a res) = if p = true ∨ a.fall then [1000] else [] := by
  unfold alertCalls
  split_ifs <;> first | rfl | simp_all

theorem samples_alertCalls (p : Bool) (a : Accel) (res : Bool) :
    samples (alertCalls p a res) = [] := by
  unfold alertCalls
  split_ifs <;> rfl

theorem buttonReads_alertCalls (p : Bool) (a : Accel) (res : Bool) :
    buttonReads (alertCalls p a res) = [] := by
  unfold alertCalls
  split_ifs <;> rfl

theorem samples_tickCalls (pre : List Call) (a : Accel) (b p res : Bool)
    (hpre : ∀ c ∈ pre, c.isLink = true) : samples (tickCalls pre a b p res) = [a] := by
  simp [tickCalls, samples_append, samples_of_isLink pre hpre, samples_alertCalls, samples]

theorem buttonReads_tickCalls (pre : List Call) (a : Accel) (b p res : Bool)
    (hpre : ∀ c ∈ pre, c.isLink = true) : buttonReads (tickCalls pre a b p res) = [b] := by
  simp [tickCalls, buttonReads_append, buttonReads_of_isLink pre hpre, buttonReads_alertCalls,
    buttonReads]

theorem publishes_tickCalls (pre : List Call) (a : Accel) (b p res : Bool)
    (hpre : ∀ c ∈ pre, c.isLink = true) :
    publishes (tickCalls pre a b p res) =
      if p then [(topic_alert, panicPayload)]
      else if a.fall then [(topic_alert, fallPayload)] else [] := by
  simp [tickCalls, publishes_append, publishes_of_isLink pre hpre, publishes_alertCalls,
    publishes]

theorem delays_tickCalls (pre : List Call) (a : Accel) (b p res : Bool) :
    delays (tickCalls pre a b p res) =
      delays pre ++ (if p = true ∨ a.fall then [1000, 50] else [50]) := by
  have h1 : delays [Call.mqttLoop, Call.getEvent a, Call.digitalRead BUTTON_PIN b] = [] := rfl
  have h2 : delays [Call.delay 50] = [50] := rfl
  unfold tickCalls
  rw [delays_append, delays_append, delays_append, h1, h2, delays_alertCalls]
  split_ifs <;> simp

/-- The calls of a tick that returns. -/
theorem loop_calls (P : Platform W) (fuel : Nat) (last : Bool) (w : W)
    (r : Bool × Machine W) (h : loop P fuel last w = some r) :
    ∃ pre w1 res, (∀ c ∈ pre, c.isLink = true) ∧
      ((P.connected w).1 = true → pre = [.connected true]) ∧
      r.1 = levelRead P w1 ∧
      calls r.2.log = tickCalls pre (sampleRead P w1) (levelRead P w1)
        (panicEdge (levelRead P w1) last) res := by
  rw [loop_eq] at h
  cases h1 : ensureLink P fuel w with
  | none => simp [h1] at h
  | some m1 =>
    simp only [h1, Option.map_some', Option.some.injEq] at h
    subst h
    obtain ⟨res, hres⟩ := sampleAndAlert_calls P last m1
    refine ⟨calls m1.log, m1.world, res, ?_, ?_, rfl, hres⟩
    · intro c hc
      obtain ⟨ext, w1, hlog, -, -, hext⟩ := ensureLink_spec P fuel w m1 h1
      rw [hlog] at hc
      simp only [calls_append, calls_cons, calls_nil, List.mem_append, List.mem_singleton] at hc
      rcases hc with hc | rfl
      · exact hext c hc
      · rfl
    · intro hc
      rw [ensureLink_connected P fuel w hc] at h1
      simp only [Option.some.injEq] at h1
      subst h1
      rfl

/-- A tick that finds the channel connected returns, whatever the fuel. -/
theorem loop_connected (P : Platform W) (fuel : Nat) (last : Bool) (w : W)
    (h : (P.connected w).1 = true) :
    loop P fuel last w =
      some (sampleAndAlert P last ⟨(P.connected w).2, [(w, .connected true)]⟩) := by
  rw [loop_eq, ensureLink_connected P fuel w h]
  rfl


/-! ## Alerts of one tick -/

theorem payloads_ne : (topic_alert, fallPayload) ≠ (topic_alert, panicPayload) := by decide

/-- C4: a tick that returns reads one sample `a` and one button level `b`; if the
press edge fires it publishes exactly once, on topic `ods3/fall/usuarioX/alert`,
the panic payload; if not and the fall condition holds it publishes exactly once,
on the same topic, the fall payload; nothing else is ever published, and the two
payloads are the same text around the words `panic` and `fall`. -/
theorem alert_payload (P : Platform W) (fuel : Nat) (last : Bool) (w : W)
    (r : Bool × Machine W) (h : loop P fuel last w = some r) :
    ∃ a b, samples (calls r.2.log) = [a] ∧ buttonReads (calls r.2.log) = [b] ∧
      (panicEdge b last = true → publishes (calls r.2.log) =
        [("ods3/fall/usuarioX/alert", "\x7b\"device_id\":\"usuarioX\",\"event\":\"panic\"\x7d")]) ∧
      (panicEdge b last = false → a.fall → publishes (calls r.2.log) =
        [("ods3/fall/usuarioX/alert", "\x7b\"device_id\":\"usuarioX\",\"event\":\"fall\"\x7d")]) ∧
      (∀ tp ∈ publishes (calls r.2.log),
        tp = ("ods3/fall/usuarioX/alert", "\x7b\"device_id\":\"usuarioX\",\"event\":\"panic\"\x7d") ∨
        tp = ("ods3/fall/usuarioX/alert", "\x7b\"device_id\":\"usuarioX\",\"event\":\"fall\"\x7d")) ∧
      panicPayload = "\x7b\"device_id\":\"usuarioX\",\"event\":\"" ++ "panic" ++ "\"\x7d" ∧
      fallPayload = "\x7b\"device_id\":\"usuarioX\",\"event\":\"" ++ "fall" ++ "\"\x7d" := by
  obtain ⟨pre, w1, res, hpre, -, -, hcalls⟩ := loop_calls P fuel last w r h
  refine ⟨sampleRead P w1, levelRead P w1, ?_, ?_, ?_, ?_, ?_, by decide, by decide⟩
  · rw [hcalls, samples_tickCalls _ _ _ _ _ hpre]
  · rw [hcalls, buttonReads_tickCalls _ _ _ _ _ hpre]
  · intro hp
    rw [hcalls, publishes_tickCalls _ _ _ _ _ hpre, if_pos hp]
    rfl
  · intro hp hf
    rw [hcalls, publishes_tickCalls _ _ _ _ _ hpre, hp, if_neg (by decide), if_pos hf]
    rfl
  · intro tp htp
    rw [hcalls, publishes_tickCalls _ _ _ _ _ hpre] at htp
    split_ifs at htp
    · left; simpa using htp
    · right; simpa using htp
    · simp at htp

theorem alert_payload_witness :
    ∃ r, loop simPlatform 0 HIGH (Sim.online [] [LOW]) = some r ∧
      ∃ a b, samples (calls r.2.log) = [a] ∧ buttonReads (calls r.2.log) = [b] ∧
      (panicEdge b HIGH = true → publishes (calls r.2.log) =
        [("ods3/fall/usuarioX/alert", "\x7b\"device_id\":\"usuarioX\",\"event\":\"panic\"\x7d")]) ∧
      (panicEdge b HIGH = false → a.fall → publishes (calls r.2.log) =
        [("ods3/fall/usuarioX/alert", "\x7b\"device_id\":\"usuarioX\",\"event\":\"fall\"\x7d")]) ∧
      (∀ tp ∈ publishes (calls r.2.log),
        tp = ("ods3/fall/usuarioX/alert", "\x7b\"device_id\":\"usuarioX\",\"event\":\"panic\"\x7d") ∨
        tp = ("ods3/fall/usuarioX/alert", "\x7b\"device_id\":\"usuarioX\",\"event\":\"fall\"\x7d")) ∧
      panicPayload = "\x7b\"device_id\":\"usuarioX\",\"event\":\"" ++ "panic" ++ "\"\x7d" ∧
      fallPayload = "\x7b\"device_id\":\"usuarioX\",\"event\":\"" ++ "fall" ++ "\"\x7d" :=
  ⟨_, rfl, alert_payload simPlatform 0 HIGH (Sim.online [] [LOW]) _ rfl⟩

/-- C5: a tick that returns publishes at most once; when the press edge fires,
also with a sample above the threshold, the one publish is the panic alert and
no fall alert is published; a fall alert is published only when the press edge
did not fire. -/
theorem panic_precedence (P : Platform W) (fuel : Nat) (last : Bool) (w : W)
    (r : Bool × Machine W) (h : loop P fuel last w = some r) :
    ∃ a b, samples (calls r.2.log) = [a] ∧ buttonReads (calls r.2.log) = [b] ∧
      (publishes (calls r.2.log)).length ≤ 1 ∧
      (panicEdge b last = true →
        publishes (calls r.2.log) = [(topic_alert, panicPayload)] ∧
        (topic_alert, fallPayload) ∉ publishes (calls r.2.log)) ∧
      (panicEdge b last = true → a.fall →
        publishes (calls r.2.log) = [(topic_alert, panicPayload)]) ∧
      ((topic_alert, fallPayload) ∈ publishes (calls r.2.log) →
        panicEdge b last = false ∧ a.fall) := by
  obtain ⟨pre, w1, res, hpre, -, -, hcalls⟩ := loop_calls P fuel last w r h
  have hpub := publishes_tickCalls pre (sampleRead P w1) (levelRead P w1)
    (panicEdge (levelRead P w1) last) res hpre
  rw [← hcalls] at hpub
  refine ⟨sampleRead P w1, levelRead P w1, ?_, ?_, ?_, ?_, ?_, ?_⟩
  · rw [hcalls, samples_tickCalls _ _ _ _ _ hpre]
  · rw [hcalls, buttonReads_tickCalls _ _ _ _ _ hpre]
  · rw [hpub]
    split_ifs <;> simp
  · intro hp
    rw [hpub, if_pos hp]
    exact ⟨rfl, by simpa using payloads_ne⟩
  · intro hp _
    rw [hpub, if_pos hp]
  · intro hm
    rw [hpub] at hm
    split_ifs at hm with h1 h2
    · exact absurd (by simpa using hm) payloads_ne
    · exact ⟨by simpa using h1, h2⟩
    · simp at hm

theorem panic_precedence_witness :
    ∃ r, loop simPlatform 0 HIGH (Sim.online [⟨0, 0, 30⟩] [LOW]) = some r ∧
      ∃ a b, samples (calls r.2.log) = [a] ∧ buttonReads (calls r.2.log) = [b] ∧
      (publishes (calls r.2.log)).length ≤ 1 ∧
      (panicEdge b HIGH = true →
        publishes (calls r.2.log) = [(topic_alert, panicPayload)] ∧
        (topic_alert, fallPayload) ∉ publishes (calls r.2.log)) ∧
      (panicEdge b HIGH = true → a.fall →
        publishes (calls r.2.log) = [(topic_alert, panicPayload)]) ∧
      ((topic_alert, fallPayload) ∈ publishes (calls r.2.log) →
        panicEdge b HIGH = false ∧ a.fall) :=
  ⟨_, rfl, panic_precedence simPlatform 0 HIGH (Sim.online [⟨0, 0, 30⟩] [LOW]) _ rfl⟩


/-! ## Sleeps of one tick -/

/-- C10: a tick that returns sleeps `1000` and then `50` when it publishes an
alert, the two `delay` calls following the `publish` directly, and sleeps only
`50` when it publishes nothing; the only other sleeps are the `2000` backoffs of
a reconnect, absent when the channel is connected at the top of the tick, in
which case the tick returns whatever the fuel and sleeps `1050` or `50` in all. -/
theorem sleeps_per_tick (P : Platform W) (fuel : Nat) (last : Bool) (w : W) :
    (∀ r, loop P fuel last w = some r →
      ∃ pre, (∀ d ∈ pre, d = 2000) ∧ ((P.connected w).1 = true → pre = []) ∧
        delays (calls r.2.log) =
          pre ++ (if publishes (calls r.2.log) = [] then [50] else [1000, 50]) ∧
        (publishes (calls r.2.log) ≠ [] → ∃ init t p res,
          calls r.2.log = init ++ [.publish t p res, .delay 1000, .delay 50])) ∧
    ((P.connected w).1 = true → ∃ r, loop P fuel last w = some r ∧
      delays (calls r.2.log) =
        (if publishes (calls r.2.log) = [] then [50] else [1000, 50]) ∧
      (delays (calls r.2.log)).sum = if publishes (calls r.2.log) = [] then 50 else 1050) := by
  have main : ∀ r, loop P fuel last w = some r →
      ∃ pre, (∀ d ∈ pre, d = 2000) ∧ ((P.connected w).1 = true → pre = []) ∧
        delays (calls r.2.log) =
          pre ++ (if publishes (calls r.2.log) = [] then [50] else [1000, 50]) ∧
        (publishes (calls r.2.log) ≠ [] → ∃ init t p res,
          calls r.2.log = init ++ [.publish t p res, .delay 1000, .delay 50]) := by
    intro r h
    obtain ⟨pre, w1, res, hpre, hconn, -, hcalls⟩ := loop_calls P fuel last w r h
    have hpub := publishes_tickCalls pre (sampleRead P w1) (levelRead P w1)
      (panicEdge (levelRead P w1) last) res hpre
    have hdel := delays_tickCalls pre (sampleRead P w1) (levelRead P w1)
      (panicEdge (levelRead P w1) last) res
    rw [← hcalls] at hpub hdel
    refine ⟨delays pre, delays_of_isLink pre hpre, ?_, ?_, ?_⟩
    · intro hc
      rw [hconn hc]
      rfl
    · rw [hdel, hpub]
      split_ifs <;> simp_all
    · intro hne
      rw [hpub] at hne
      rw [hcalls]
      unfold tickCalls alertCalls
      split_ifs at hne ⊢ with h1 h2
      · exact ⟨pre ++ [.mqttLoop, .getEvent (sampleRead P w1),
          .digitalRead BUTTON_PIN (levelRead P w1), .tone BUZZER_PIN 2000 200],
          topic_alert, panicPayload, res, by simp⟩
      · exact ⟨pre ++ [.mqttLoop, .getEvent (sampleRead P w1),
          .digitalRead BUTTON_PIN (levelRead P w1), .tone BUZZER_PIN 2000 200],
          topic_alert, fallPayload, res, by simp⟩
      · exact absurd rfl hne
  refine ⟨main, ?_⟩
  intro hc
  obtain ⟨pre, -, hpre, hdel, -⟩ := main _ (loop_connected P fuel last w hc)
  rw [hpre hc, List.nil_append] at hdel
  refine ⟨_, loop_connected P fuel last w hc, hdel, ?_⟩
  rw [hdel]
  split_ifs <;> rfl

theorem sleeps_per_tick_witness :
    (simPlatform.connected (Sim.online [] [LOW])).1 = true ∧
    (∃ r, loop simPlatform 0 HIGH (Sim.online [] [LOW]) = some r ∧
      delays (calls r.2.log) =
        (if publishes (calls r.2.log) = [] then [50] else [1000, 50]) ∧
      (delays (calls r.2.log)).sum = if publishes (calls r.2.log) = [] then 50 else 1050) ∧
    ∃ r, loop simPlatform 0 HIGH (Sim.online [] [LOW]) = some r ∧
      ∃ pre, (∀ d ∈ pre, d = 2000) ∧
        ((simPlatform.connected (Sim.online [] [LOW])).1 = true → pre = []) ∧
        delays (calls r.2.log) =
          pre ++ (if publishes (calls r.2.log) = [] then [50] else [1000, 50]) ∧
        (publishes (calls r.2.log) ≠ [] → ∃ init t p res,
          calls r.2.log = init ++ [.publish t p res, .delay 1000, .delay 50]) :=
  ⟨rfl, (sleeps_per_tick simPlatform 0 HIGH (Sim.online [] [LOW])).2 rfl,
    _, rfl, (sleeps_per_tick simPlatform 0 HIGH (Sim.online [] [LOW])).1 _ rfl⟩

/-! ## The result of `client.publish` is not used -/

theorem reconnectMQTT_withPublishResult (P : Platform W) (f : String → String → W → Bool)
    (fuel : Nat) (m : Machine W) :
    reconnectMQTT (P.withPublishResult f) fuel m = reconnectMQTT P fuel m := by
  induction fuel generalizing m with
  | zero => rfl
  | succ fuel ih =>
    unfold reconnectMQTT
    dsimp only
    have h1 : clientConnected (P.withPublishResult f) m = clientConnected P m := rfl
    have h2 : ∀ m', clientConnect (P.withPublishResult f) clientId m' =
      clientConnect P clientId m' := fun _ => rfl
    have h3 : ∀ m', clientSubscribe (P.withPublishResult f) topic_cmd m' =
      clientSubscribe P topic_cmd m' := fun _ => rfl
    have h4 : ∀ m', delay (P.withPublishResult f) 2000 m' = delay P 2000 m' := fun _ => rfl
    rw [h1, h2, h3, h4, ih, ih]

theorem ensureLink_withPublishResult (P : Platform W) (f : String → String → W → Bool)
    (fuel : Nat) (w : W) :
    ensureLink (P.withPublishResult f) fuel w = ensureLink P fuel w := by
  unfold ensureLink
  have h1 : clientConnected (P.withPublishResult f) ⟨w, []⟩ = clientConnected P ⟨w, []⟩ := rfl
  rw [h1, reconnectMQTT_withPublishResult]

theorem sampleAndAlert_withPublishResult (P : Platform W) (f : String → String → W → Bool)
    (last : Bool) (m1 : Machine W) :
    eraseResults (sampleAndAlert (P.withPublishResult f) last m1) =
      eraseResults (sampleAndAlert P last m1) := by
  unfold eraseResults sampleAndAlert
  simp only [digitalRead, mpuGetEvent, clientLoop, clientPublish, beep, tone, delay,
    Platform.withPublishResult]
  split_ifs <;> simp [Call.eraseResult]


theorem publishResults_append (l₁ l₂ : List Call) :
    publishResults (l₁ ++ l₂) = publishResults l₁ ++ publishResults l₂ := by
  induction l₁ with
  | nil => rfl
  | cons c cs ih => cases c <;> simp [publishResults, ih]

theorem publishResults_of_isLink (l : List Call) (h : ∀ c ∈ l, c.isLink = true) :
    publishResults l = [] := by
  induction l with
  | nil => rfl
  | cons c cs ih =>
    have hc := h c (List.mem_cons_self _ _)
    have ih' := ih (fun d hd => h d (List.mem_cons_of_mem _ hd))
    cases c <;> simp_all [publishResults, Call.isLink]

theorem publishResults_tickCalls (pre : List Call) (a : Accel) (b p res : Bool)
    (hpre : ∀ c ∈ pre, c.isLink = true) :
    publishResults (tickCalls pre a b p res) = if p = true ∨ a.fall then [res] else [] := by
  have h1 : publishResults [Call.mqttLoop, Call.getEvent a, Call.digitalRead BUTTON_PIN b] = [] :=
    rfl
  have h2 : publishResults [Call.delay 50] = [] := rfl
  unfold tickCalls
  rw [publishResults_append, publishResults_append, publishResults_append, h1, h2,
    publishResults_of_isLink pre hpre]
  unfold alertCalls
  split_ifs <;> first | rfl | simp_all

/-- C9: the tick does the same whatever `client.publish` reports: with the
reported result replaced by any other, the new `lastButtonState`, the
environment state and the log (results of `publish` blanked) are the same; a
tick that raises an alert calls `client.publish` exactly once and a tick that
does not never calls it; on the scripted platform a rejected publish is made once
and not repeated, while a failed `client.connect` is followed by another. -/
theorem publish_fire_and_forget (P : Platform W) (f : String → String → W → Bool)
    (fuel : Nat) (last : Bool) (w : W) :
    (loop (P.withPublishResult f) fuel last w).map eraseResults =
      (loop P fuel last w).map eraseResults ∧
    (∀ r, loop P fuel last w = some r →
      ∃ a b, samples (calls r.2.log) = [a] ∧ buttonReads (calls r.2.log) = [b] ∧
        (publishResults (calls r.2.log)).length =
          if panicEdge b last = true ∨ a.fall then 1 else 0) ∧
    (loop simPlatform 0 HIGH Sim.rejecting).map (fun r => calls r.2.log) =
      some [.connected true, .mqttLoop, .getEvent ⟨0, 0, 0⟩, .digitalRead BUTTON_PIN LOW,
        .tone BUZZER_PIN 2000 200, .publish topic_alert panicPayload false, .delay 1000,
        .delay 50] ∧
    (reconnectMQTT simPlatform 3 ⟨Sim.offline [false, true] [] [], []⟩).map
      (fun m => connects (calls m.log)) = some [false, true] := by
  refine ⟨?_, ?_, rfl, rfl⟩
  · rw [loop_eq, loop_eq, ensureLink_withPublishResult]
    cases ensureLink P fuel w with
    | none => rfl
    | some m1 =>
      simp only [Option.map_some']
      rw [sampleAndAlert_withPublishResult]
  · intro r h
    obtain ⟨pre, w1, res, hpre, -, -, hcalls⟩ := loop_calls P fuel last w r h
    refine ⟨sampleRead P w1, levelRead P w1, ?_, ?_, ?_⟩
    · rw [hcalls, samples_tickCalls _ _ _ _ _ hpre]
    · rw [hcalls, buttonReads_tickCalls _ _ _ _ _ hpre]
    · rw [hcalls, publishResults_tickCalls _ _ _ _ _ hpre]
      split_ifs <;> rfl

theorem publish_fire_and_forget_witness :
    ∃ r, loop simPlatform 0 HIGH Sim.rejecting = some r ∧
      ∃ a b, samples (calls r.2.log) = [a] ∧ buttonReads (calls r.2.log) = [b] ∧
        (publishResults (calls r.2.log)).length =
          if panicEdge b HIGH = true ∨ a.fall then 1 else 0 :=
  ⟨_, rfl, (publish_fire_and_forget simPlatform (fun _ _ _ => true) 0 HIGH
    Sim.rejecting).2.1 _ rfl⟩


/-! ## Reconnecting with a fixed backoff -/

theorem subscribes_append (l₁ l₂ : List Call) :
    subscribes (l₁ ++ l₂) = subscribes l₁ ++ subscribes l₂ := by
  induction l₁ with
  | nil => rfl
  | cons c cs ih => cases c <;> simp [subscribes, ih]

theorem connects_append (l₁ l₂ : List Call) :
    connects (l₁ ++ l₂) = connects l₁ ++ connects l₂ := by
  induction l₁ with
  | nil => rfl
  | cons c cs ih => cases c <;> simp [connects, ih]

theorem backoffTrace_succ (n : Nat) :
    backoffTrace (n + 1) =
      [Call.connected false, .connect clientId false, .delay 2000] ++ backoffTrace n := by
  simp [backoffTrace, List.replicate_succ]

theorem backoffTrace_isLink (n : Nat) : ∀ c ∈ backoffTrace n, c.isLink = true := by
  induction n with
  | zero => intro c hc; simp [backoffTrace] at hc; rcases hc with rfl | rfl | rfl | rfl <;> rfl
  | succ n ih =>
    intro c hc
    rw [backoffTrace_succ] at hc
    simp only [List.mem_append, List.mem_cons, List.not_mem_nil, or_false] at hc
    rcases hc with (rfl | rfl | rfl) | hc
    · rfl
    · rfl
    · rfl
    · exact ih c hc

theorem connects_backoffTrace (n : Nat) :
    connects (backoffTrace n) = List.replicate n false ++ [true] := by
  induction n with
  | zero => rfl
  | succ n ih =>
    rw [backoffTrace_succ, connects_append, ih]
    rfl

theorem delays_backoffTrace (n : Nat) : delays (backoffTrace n) = List.replicate n 2000 := by
  induction n with
  | zero => rfl
  | succ n ih =>
    rw [backoffTrace_succ, delays_append, ih]
    rfl

theorem subscribes_backoffTrace (n : Nat) : subscribes (backoffTrace n) = [topic_cmd] := by
  induction n with
  | zero => rfl
  | succ n ih =>
    rw [backoffTrace_succ, subscribes_append, ih]
    rfl

theorem reconnectMQTT_done (P : Platform W) (fuel : Nat) (m : Machine W)
    (hc : (P.connected m.world).1 = true) :
    reconnectMQTT P (fuel + 1) m = some (clientConnected P m).2 := by
  rw [reconnectMQTT]
  simp [clientConnected, hc]

theorem reconnectMQTT_retry (P : Platform W) (fuel : Nat) (m : Machine W)
    (hc : (P.connected m.world).1 = false)
    (hk : (P.connect clientId (P.connected m.world).2).1 = false) :
    reconnectMQTT P (fuel + 1) m =
      reconnectMQTT P fuel (delay P 2000 (clientConnect P clientId (clientConnected P m).2).2) := by
  conv_lhs => rw [reconnectMQTT]
  have h1 : (clientConnected P m).1 = false := hc
  have h2 : (clientConnect P clientId (clientConnected P m).2).1 = false := hk
  simp only [h1, h2, Bool.not_false, if_true, Bool.false_eq_true, if_false]

theorem reconnectMQTT_subscribe (P : Platform W) (fuel : Nat) (m : Machine W)
    (hc : (P.connected m.world).1 = false)
    (hk : (P.connect clientId (P.connected m.world).2).1 = true) :
    reconnectMQTT P (fuel + 1) m =
      reconnectMQTT P fuel
        (clientSubscribe P topic_cmd (clientConnect P clientId (clientConnected P m).2).2) := by
  conv_lhs => rw [reconnectMQTT]
  have h1 : (clientConnected P m).1 = false := hc
  have h2 : (clientConnect P clientId (clientConnected P m).2).1 = true := hk
  simp only [h1, h2, Bool.not_false, if_true]

/-- When `client.connect` fails `n` times and then succeeds, `reconnectMQTT`
returns after the calls `backoffTrace n`, given fuel for `n + 2` loop tests. -/
theorem reconnectMQTT_backoff (P : Platform W) (n k : Nat) (m : Machine W)
    (h : connectsAfter P n m.world) :
    ∃ m1, reconnectMQTT P (n + 2 + k) m = some m1 ∧
      calls m1.log = calls m.log ++ backoffTrace n := by
  induction n generalizing m with
  | zero =>
    obtain ⟨hc, hk, hd⟩ := h
    have e1 := reconnectMQTT_subscribe P (k + 1) m hc hk
    have e2 := reconnectMQTT_done P k
      (clientSubscribe P topic_cmd (clientConnect P clientId (clientConnected P m).2).2) hd
    refine ⟨(clientConnected P
      (clientSubscribe P topic_cmd (clientConnect P clientId (clientConnected P m).2).2)).2,
      ?_, ?_⟩
    · rw [show 0 + 2 + k = (k + 1) + 1 by omega]
      exact e1.trans e2
    · have hd' : (P.connected (P.subscribe topic_cmd
          (P.connect clientId (P.connected m.world).2).2)).1 = true := hd
      simp [clientConnected, clientConnect, clientSubscribe, backoffTrace, hc, hk, hd']
  | succ n ih =>
    obtain ⟨hc, hk, hrest⟩ := h
    have e1 := reconnectMQTT_retry P (n + 2 + k) m hc hk
    obtain ⟨m1, hm1, hcalls⟩ :=
      ih (delay P 2000 (clientConnect P clientId (clientConnected P m).2).2) hrest
    refine ⟨m1, ?_, ?_⟩
    · rw [show n + 1 + 2 + k = (n + 2 + k) + 1 by omega]
      exact e1.trans hm1
    · rw [hcalls, backoffTrace_succ]
      simp [clientConnected, clientConnect, delay, hc, hk]

/-- The scripted channel that is down, fails the next `n` connects and accepts
the one after satisfies the premise of the reconnect scenario. -/
theorem connectsAfter_sim (n : Nat) (rest : List Bool) (accels : List Accel)
    (levels : List Bool) :
    connectsAfter simPlatform n
      (Sim.offline (List.replicate n false ++ true :: rest) accels levels) := by
  induction n with
  | zero => exact ⟨rfl, rfl, rfl⟩
  | succ n ih => exact ⟨rfl, rfl, ih⟩

/-- C8: on any channel that is down, fails the first `n` connects of
`reconnectMQTT` and accepts the next one, after which it answers connected,
`reconnectMQTT` returns (for any fuel of at least `n + 2` loop tests) after
exactly the calls `backoffTrace n`: `n + 1` connects, `n` sleeps of `2000` (one
after each failure, none after the success), one subscribe to
`ods3/fall/usuarioX/cmd`, and no publish, sensor read or button read.  The tick
of `loop()` that meets this outage makes these calls before it services the
channel and samples; for `n = 3` they hold exactly three sleeps. -/
theorem reconnect_backoff (P : Platform W) (n k : Nat) :
    (∀ w, connectsAfter P n w →
      ∃ m, reconnectMQTT P (n + 2 + k) ⟨w, []⟩ = some m ∧
        calls m.log = backoffTrace n ∧
        connects (calls m.log) = List.replicate n false ++ [true] ∧
        (connects (calls m.log)).length = n + 1 ∧
        delays (calls m.log) = List.replicate n 2000 ∧
        subscribes (calls m.log) = ["ods3/fall/usuarioX/cmd"] ∧
        publishes (calls m.log) = [] ∧ samples (calls m.log) = [] ∧
        buttonReads (calls m.log) = []) ∧
    (∀ last w, (P.connected w).1 = false → connectsAfter P n (P.connected w).2 →
      ∃ r a b res, loop P (n + 2 + k) last w = some r ∧
        calls r.2.log =
          tickCalls (.connected false :: backoffTrace n) a b (panicEdge b last) res) ∧
    delays (Call.connected false :: backoffTrace 3) = [2000, 2000, 2000] := by
  refine ⟨?_, ?_, rfl⟩
  · intro w h
    obtain ⟨m, hm, hcalls⟩ := reconnectMQTT_backoff P n k ⟨w, []⟩ h
    have hc : calls m.log = backoffTrace n := by simpa using hcalls
    refine ⟨m, hm, hc, ?_, ?_, ?_, ?_, ?_, ?_, ?_⟩
    · rw [hc, connects_backoffTrace]
    · rw [hc, connects_backoffTrace]; simp
    · rw [hc, delays_backoffTrace]
    · rw [hc, subscribes_backoffTrace]; rfl
    · rw [hc]; exact publishes_of_isLink _ (backoffTrace_isLink n)
    · rw [hc]; exact samples_of_isLink _ (backoffTrace_isLink n)
    · rw [hc]; exact buttonReads_of_isLink _ (backoffTrace_isLink n)
  · intro last w hw h
    obtain ⟨m, hm, hcalls⟩ := reconnectMQTT_backoff P n k (clientConnected P ⟨w, []⟩).2 h
    have hlink : ensureLink P (n + 2 + k) w = some m := by
      unfold ensureLink
      have h1 : (clientConnected P ⟨w, []⟩).1 = false := hw
      simp only [h1, Bool.not_false, if_true]
      exact hm
    obtain ⟨res, hres⟩ := sampleAndAlert_calls P last m
    refine ⟨sampleAndAlert P last m, sampleRead P m.world, levelRead P m.world, res, ?_, ?_⟩
    · rw [loop_eq, hlink]; rfl
    · rw [hres, hcalls]
      simp [clientConnected, tickCalls, hw]

theorem reconnect_backoff_witness :
    connectsAfter simPlatform 3 (Sim.offline [false, false, false, true] [] [LOW]) ∧
    (∃ m, reconnectMQTT simPlatform (3 + 2 + 0)
        ⟨Sim.offline [false, false, false, true] [] [LOW], []⟩ = some m ∧
      calls m.log = backoffTrace 3 ∧
      connects (calls m.log) = List.replicate 3 false ++ [true] ∧
      (connects (calls m.log)).length = 3 + 1 ∧
      delays (calls m.log) = List.replicate 3 2000 ∧
      subscribes (calls m.log) = ["ods3/fall/usuarioX/cmd"] ∧
      publishes (calls m.log) = [] ∧ samples (calls m.log) = [] ∧
      buttonReads (calls m.log) = []) ∧
    (simPlatform.connected (Sim.offline [false, false, false, true] [] [LOW])).1 = false ∧
    ∃ r a b res, loop simPlatform (3 + 2 + 0) HIGH
        (Sim.offline [false, false, false, true] [] [LOW]) = some r ∧
      calls r.2.log =
        tickCalls (.connected false :: backoffTrace 3) a b (panicEdge b HIGH) res :=
  ⟨connectsAfter_sim 3 [] [] [LOW],
    (reconnect_backoff simPlatform 3 0).1 _ (connectsAfter_sim 3 [] [] [LOW]),
    rfl,
    (reconnect_backoff simPlatform 3 0).2.1 HIGH _ rfl (connectsAfter_sim 3 [] [] [LOW])⟩

/-! ## Streams of ticks on a connected channel -/

end FallDetection
